import Mathlib

/-!
Verification of the audio-transcoder pipeline (`transcode.py`).

The Python source is embedded shallowly:
  * Python `dict`s of metadata tags become insertion-ordered association
    lists (`Tags`) with update-in-place semantics (`setTag`),
  * Python exceptions become `Except PyErr`,
  * the filesystem becomes a list of existing paths (`FS`),
  * external codec processes become oracles (`Except`-valued parameters),
  * per-attempt success of `os.remove` becomes a `Nat → Bool` oracle.
-/

namespace Transcode

/-- Python exceptions raised by the embedded code. -/
inductive PyErr where
  | exception (msg : String)
  | fileNotFound (msg : String)
  | valueError (msg : String)
  | keyError (key : String)
  | typeError
  deriving Repr, DecidableEq

/-- A Python tag value: decoders produce `str`s; the crosswalk's
track-number normalisation stores an `int` into the dict. -/
inductive TagValue where
  | str (s : String)
  | int (n : Int)
  deriving Repr, DecidableEq

/-- A Python `dict` of metadata tags: insertion-ordered association list,
keys unique (first binding wins on lookup, assignment updates in place). -/
abbrev Tags := List (String × TagValue)

/-- `d[k]` lookup (as an `Option`). -/
def lookupTag : Tags → String → Option TagValue
  | [], _ => none
  | (k₁, v₁) :: rest, k => if k₁ = k then some v₁ else lookupTag rest k

/-- `k in d`. -/
def hasKey (t : Tags) (k : String) : Bool := (lookupTag t k).isSome

/-- `d[k] = v`: update the existing binding in place (keeping its
position, as Python dicts do), else append a new binding. -/
def setTag : Tags → String → TagValue → Tags
  | [], k, v => [(k, v)]
  | (k₁, v₁) :: rest, k, v =>
    if k₁ = k then (k, v) :: rest else (k₁, v₁) :: setTag rest k v

/-- Digit run of a Python integer literal: digits with single
underscores allowed only between digits. Accumulates the value. -/
def pyDigitsAux : Nat → List Char → Option Nat
  | acc, [] => some acc
  | acc, c :: rest =>
    if c.isDigit then pyDigitsAux (acc * 10 + (c.toNat - 48)) rest
    else if c = '_' then
      match rest with
      | d :: rest₂ =>
        if d.isDigit then pyDigitsAux (acc * 10 + (d.toNat - 48)) rest₂
        else none
      | [] => none
    else none

/-- Nonempty digit run (first char must be a digit). -/
def pyDigits : List Char → Option Nat
  | [] => none
  | c :: rest => if c.isDigit then pyDigitsAux (c.toNat - 48) rest else none

/-- Python `int(s)` for a string: strip whitespace, optional sign,
digits; `none` models the `ValueError` raise. -/
def pyIntOfString (s : String) : Option Int :=
  let cs := (s.toList.dropWhile Char.isWhitespace).reverse.dropWhile Char.isWhitespace
  match cs.reverse with
  | '+' :: rest => (pyDigits rest).map Int.ofNat
  | '-' :: rest => (pyDigits rest).map (fun n => -(n : Int))
  | rest => (pyDigits rest).map Int.ofNat

/-- Python `int(v)` on a tag value (`int` of an `int` is the identity). -/
def pyInt : TagValue → Option Int
  | .int n => some n
  | .str s => pyIntOfString s

/-- `' [' + v + ']'`-style concatenation used by the crosswalk: `+=` on
strings; any non-string operand raises `TypeError`. -/
def pyStrAppendVersion : TagValue → TagValue → Except PyErr TagValue
  | .str t, .str v => .ok (.str (t ++ " [" ++ v ++ "]"))
  | _, _ => .error .typeError

/-- `schema_crosswalk` after `update(schema_crosswalk_proposed)`: the
eleven standard Vorbis→Nero entries followed by the four proposed ones
(dict update appends new keys in order). -/
def schema_crosswalk : List (String × String) :=
  [("ARTIST", "artist"),
   ("TITLE", "title"),
   ("ALBUM", "album"),
   ("DATE", "year"),
   ("TRACKNUMBER", "track"),
   ("GENRE", "genre"),
   ("COMMENT", "comment"),
   ("ORGANIZATION", "label"),
   ("LICENSE", "credits"),
   ("COPYRIGHT", "copyright"),
   ("ISRC", "isrc"),
   ("COMPOSER", "composer"),
   ("TRACKTOTAL", "totaltracks"),
   ("DISCNUMBER", "disc"),
   ("DISCTOTAL", "totaldiscs")]

/-- The final `for vorbis_field, nero_field in schema_crosswalk.items()`
loop: copy every mapped field of `tags` into `out`. -/
def crossFold (tags : Tags) (l : List (String × String)) (out : Tags) : Tags :=
  l.foldl
    (fun out vn =>
      match lookupTag tags vn.1 with
      | some v => setTag out vn.2 v
      | none => out)
    out

/-- Step 1 of the crosswalk: `if 'VERSION' in tags_in:
tags_in['TITLE'] += ' [' + tags_in['VERSION'] + ']'` — indexing `TITLE`
raises `KeyError` when it is absent. -/
def versionStep (tags_in : Tags) : Except PyErr Tags :=
  match lookupTag tags_in "VERSION" with
  | none => .ok tags_in
  | some ver =>
    match lookupTag tags_in "TITLE" with
    | none => .error (.keyError "TITLE")
    | some title =>
      match pyStrAppendVersion title ver with
      | .error e => .error e
      | .ok v => .ok (setTag tags_in "TITLE" v)

/-- Step 2 of the crosswalk: `if 'TRACKNUMBER' in tags_in:
tags_in['TRACKNUMBER'] = int(tags_in['TRACKNUMBER'])`. -/
def tracknumberStep (tags : Tags) : Except PyErr Tags :=
  match lookupTag tags "TRACKNUMBER" with
  | none => .ok tags
  | some tn =>
    match pyInt tn with
    | none => .error (.valueError "invalid literal for int")
    | some n => .ok (setTag tags "TRACKNUMBER" (.int n))

/-- `NeroAACEncoder._map_vorbis_comment_to_neroaactag`.

Returns the pair (final state of the *input* dict, output dict): the
Python function mutates `tags_in` in place in its first two steps, so
the post-call input dict is part of the observable result.  Errors model
the `KeyError` from `tags_in['TITLE']` when TITLE is absent and the
`ValueError` from `int(tags_in['TRACKNUMBER'])`. -/
def mapVorbisCommentToNeroaactag (tags_in : Tags) : Except PyErr (Tags × Tags) :=
  match versionStep tags_in with
  | .error e => .error e
  | .ok tags₁ =>
    match tracknumberStep tags₁ with
    | .error e => .error e
    | .ok tags₂ => .ok (tags₂, crossFold tags₂ schema_crosswalk [])

/-! ## Filesystem model and path helpers -/

/-- The filesystem as the list of currently existing paths. -/
abbrev FS := List String

/-- `os.path.exists(p)` / `Path.exists()`. -/
def fsExists (fs : FS) (p : String) : Bool := fs.contains p

/-- `os.remove(p)` / `Path.unlink()` (successful case). -/
def fsRemove (fs : FS) (p : String) : FS := fs.filter (fun q => q ≠ p)

/-- Creation of a file (e.g. by `tempfile.mkstemp` or an encoder). -/
def fsCreate (fs : FS) (p : String) : FS := if fs.contains p then fs else p :: fs

/-- Index of the last `'.'` in a list of characters, if any. -/
def lastDotIdx (cs : List Char) : Option Nat :=
  (List.range cs.length).foldl
    (fun acc i => if cs.get? i = some '.' then some i else acc) none

/-- `pathlib.PurePath.suffix` of a file name: `name[i:]` where `i` is the
index of the last dot, provided `0 < i < len(name) - 1`, else `''`. -/
def pathSuffix (name : String) : String :=
  let cs := name.toList
  match lastDotIdx cs with
  | some i => if 0 < i ∧ i < cs.length - 1 then String.mk (cs.drop i) else ""
  | none => ""

/-- The stem of a file name: the name with `pathSuffix` removed. -/
def pathStem (name : String) : String :=
  let cs := name.toList
  match lastDotIdx cs with
  | some i => if 0 < i ∧ i < cs.length - 1 then String.mk (cs.take i) else name
  | none => name

/-- `pathlib.PurePath.name`: the final path component (the characters
after the last `'/'`). -/
def pathName (p : String) : String :=
  String.mk ((p.toList.reverse.takeWhile (fun c => c ≠ '/')).reverse)

/-- `Transcoder._create_outfile_name`:
`outfolder.joinpath(infile.with_suffix(encoder.suffix).name)`. -/
def createOutfileName (encoderSuffix infile outfolder : String) : String :=
  outfolder ++ "/" ++ (pathStem (pathName infile) ++ encoderSuffix)

/-! ## Temporary-file deletion (`Transcoder._delete_tmp_files`)

The `while os.path.exists(tmp_file) and attempts < max_attempts` loop is
embedded with a fuel argument: started at fuel `20` and attempts `0`,
fuel is exactly `20 - attempts`, so the fuel guard is the
`attempts < 20` guard.  Whether a given `os.remove` call succeeds is an
oracle `Nat → Bool` indexed by the attempt number; a failed call sleeps
for 200 ms (accumulated in `sleptMs`). -/

/-- Per-path statistics of the deletion loop. -/
structure DelStat where
  path : String
  attempts : Nat
  failedAttempts : Nat
  sleptMs : Nat
  deriving Repr, DecidableEq

/-- One path's `while` loop: attempt deletion while the file exists and
attempts remain; on a failed attempt sleep 200 ms and retry. -/
def deleteLoop (removeOk : Nat → Bool) (p : String) :
    Nat → FS → Nat → Nat → Nat → FS × Nat × Nat × Nat
  | 0, fs, attempts, failed, slept => (fs, attempts, failed, slept)
  | fuel + 1, fs, attempts, failed, slept =>
    if fsExists fs p then
      let a := attempts + 1
      if removeOk a then deleteLoop removeOk p fuel (fsRemove fs p) a failed slept
      else deleteLoop removeOk p fuel fs a (failed + 1) (slept + 200)
    else (fs, attempts, failed, slept)

/-- The `for tmp_file in iter(self.tmp_file_queue.get, '')` loop: drain
the queue until the sentinel `''`; returns the queue contents left after
the loop, the final filesystem, and per-path statistics. -/
def drainTmpQueue (removeOk : String → Nat → Bool) :
    List String → FS → List String × FS × List DelStat
  | [], fs => ([], fs, [])
  | q :: rest, fs =>
    if q = "" then (rest, fs, [])
    else
      let r := deleteLoop (removeOk q) q 20 fs 0 0 0
      let d := drainTmpQueue removeOk rest r.1
      (d.1, d.2.1, ⟨q, r.2.1, r.2.2.1, r.2.2.2⟩ :: d.2.2)

/-- `Transcoder._delete_tmp_files`: put the `''` sentinel (the
"Workaround" line), then drain. `pending` is the content of
`tmp_file_queue` when the method is called. -/
def deleteTmpFiles (removeOk : String → Nat → Bool) (pending : List String)
    (fs : FS) : List String × FS × List DelStat :=
  drainTmpQueue removeOk (pending ++ [""]) fs

/-! ## The worker (`Transcoder.run` / `Transcoder._transcode`)

The external codec calls are oracles: `decode` is the outcome of
`self.decoder.decode(infile, tmp_audio, tmp_image)` (tags on success,
the exception's message on failure) and `encode tags` the outcome of
`self.encoder.encode(tmp_audio, outfile, tags, tmp_image)`.  Both are
wrapped in `try/except Exception` in the source, so their failures
become logged warnings, never propagated exceptions. -/

/-- Per-job oracles: the two fresh names `tempfile.mkstemp` hands out,
the decoder and encoder outcomes, and the `os.remove` success oracle
used during cleanup. -/
structure JobOracles where
  tmpAudio : String
  tmpImage : String
  decode : Except String Tags
  encode : Tags → Except String Unit
  removeOk : String → Nat → Bool

/-- Observable outcome of one `_transcode` call. -/
structure TranscodeOut where
  fs : FS
  decodeAttempted : Bool
  encodeAttempted : Bool
  warnings : List String
  tmps : List String
  fsAtDecode : Option FS

/-- The encode phase of `_transcode`: the encoder call, its failure
caught and logged as a warning, its success creating the output file.
`fs₂` is the filesystem after the two temporary files were created. -/
def transcodeEncodePhase (o : JobOracles) (outfile : String) (fs₂ : FS)
    (tags : Tags) : TranscodeOut :=
  match o.encode tags with
  | .error e =>
    ⟨fs₂, true, true, ["Failed to encode file: " ++ e],
     [o.tmpAudio, o.tmpImage], some fs₂⟩
  | .ok _ =>
    ⟨fsCreate fs₂ outfile, true, true, [], [o.tmpAudio, o.tmpImage],
     some fs₂⟩

/-- The body of `_transcode` past the overwrite check: create the two
temporary files, call the decoder, then (on success) the encoder;
codec failures are caught and logged as warnings. -/
def transcodeBody (o : JobOracles) (outfile : String) (fs₀ : FS) :
    TranscodeOut :=
  match o.decode with
  | .error e =>
    ⟨fsCreate (fsCreate fs₀ o.tmpAudio) o.tmpImage, true, false,
     ["Failed to decode file: " ++ e], [o.tmpAudio, o.tmpImage],
     some (fsCreate (fsCreate fs₀ o.tmpAudio) o.tmpImage)⟩
  | .ok tags =>
    transcodeEncodePhase o outfile
      (fsCreate (fsCreate fs₀ o.tmpAudio) o.tmpImage) tags

/-- `Transcoder._transcode(infile, outfile)`: overwrite check, then
temporary-file creation, then decode, then encode.  Every `return` in
the Python body is a normal return; codec exceptions are caught. -/
def transcode (force_overwrite : Bool) (o : JobOracles) (outfile : String)
    (fs : FS) : TranscodeOut :=
  if fsExists fs outfile then
    if force_overwrite then transcodeBody o outfile (fsRemove fs outfile)
    else ⟨fs, false, false, [], [], none⟩
  else transcodeBody o outfile fs

/-- One (input file, output folder) queue item. -/
structure JobSpec where
  infile : String
  outfolder : String
  deriving Repr, DecidableEq

/-- Observable record of one iteration of the worker loop. -/
structure IterRecord where
  outfile : String
  decodeAttempted : Bool
  encodeAttempted : Bool
  warnings : List String
  fsAtDecode : Option FS
  tmpRemaining : List String
  taskDone : Bool

/-- One iteration of `Transcoder.run`: dequeue (the given `job`),
compute the output name, `_transcode`, `_delete_tmp_files`,
`task_done`. -/
def processJob (force_overwrite : Bool) (encoderSuffix : String)
    (o : JobOracles) (job : JobSpec) (fs : FS) : FS × IterRecord :=
  let outfile := createOutfileName encoderSuffix job.infile job.outfolder
  let t := transcode force_overwrite o outfile fs
  let c := deleteTmpFiles o.removeOk t.tmps t.fs
  (c.2.1,
   ⟨outfile, t.decodeAttempted, t.encodeAttempted, t.warnings, t.fsAtDecode,
    c.1, true⟩)

/-- The worker loop over a finite stream of queue items (the loop of
`Transcoder.run`, which never exits by itself, observed while it
consumes `jobs`): one `IterRecord` per dequeued job. -/
def workerRun (force_overwrite : Bool) (encoderSuffix : String)
    (F : JobSpec → JobOracles) : List JobSpec → FS → FS × List IterRecord
  | [], fs => (fs, [])
  | job :: rest, fs =>
    let r := processJob force_overwrite encoderSuffix (F job) job fs
    let w := workerRun force_overwrite encoderSuffix F rest r.1
    (w.1, r.2 :: w.2)

/-! ## Codec constructors and `TranscodeJob.start`

`shutil.which` lookups become an `Env` of availability flags.  The
`str(quality / ...)` float formatting is not modelled (no claim touches
the quality string); the raw 0–100 quality is kept. -/

/-- Which external executables `shutil.which` can resolve. -/
structure Env where
  flac : Bool
  metaflac : Bool
  neroAacEnc : Bool
  neroAacTag : Bool
  opusenc : Bool
  deriving Repr, DecidableEq

/-- A constructed decoder: its suffix and configuration flags. -/
structure DecoderInfo where
  suffix : String
  extract_metadata : Bool
  extract_image : Bool
  deriving Repr, DecidableEq

/-- A constructed encoder: its suffix, configuration flags and raw
quality. -/
structure EncoderInfo where
  suffix : String
  embed_metadata : Bool
  embed_image : Bool
  quality : Nat
  deriving Repr, DecidableEq

/-- `FLACDecoder.__init__`. -/
def FLACDecoder_init (env : Env) (extract_metadata extract_image : Bool) :
    Except PyErr DecoderInfo :=
  if !env.flac then .error (.fileNotFound "Cannot locate required executable »flac«")
  else if !env.metaflac then .error (.fileNotFound "Cannot locate required executable »metaflac«")
  else .ok ⟨".flac", extract_metadata, extract_image⟩

/-- `WAVEDecoder.__init__`: raises whenever metadata or image extraction
is requested. -/
def WAVEDecoder_init (extract_metadata extract_image : Bool) :
    Except PyErr DecoderInfo :=
  if extract_metadata || extract_image then
    .error (.exception "WAVE files have no native support for metadata or embedded images.")
  else .ok ⟨".wav", extract_metadata, extract_image⟩

/-- `FLACEncoder.__init__`. -/
def FLACEncoder_init (env : Env) (embed_metadata embed_image : Bool)
    (quality : Nat) : Except PyErr EncoderInfo :=
  if !env.flac then .error (.fileNotFound "Cannot locate required executable »flac«")
  else if !env.metaflac then .error (.fileNotFound "Cannot locate required executable »metaflac«")
  else .ok ⟨".flac", embed_metadata, embed_image, quality⟩

/-- `NeroAACEncoder.__init__`. -/
def NeroAACEncoder_init (env : Env) (embed_metadata embed_image : Bool)
    (quality : Nat) : Except PyErr EncoderInfo :=
  if !env.neroAacEnc then .error (.fileNotFound "Cannot locate required executable »neroAacEnc«")
  else if !env.neroAacTag then .error (.fileNotFound "Cannot locate required executable »neroAacTag«")
  else .ok ⟨".m4a", embed_metadata, embed_image, quality⟩

/-- `XiphOpusEncoder.__init__`. -/
def XiphOpusEncoder_init (env : Env) (embed_metadata embed_image : Bool)
    (quality : Nat) : Except PyErr EncoderInfo :=
  if !env.opusenc then .error (.fileNotFound "Cannot locate required executable »opusenc«")
  else .ok ⟨".opus", embed_metadata, embed_image, quality⟩

/-- `WAVEEncoder.__init__`: raises whenever metadata or image embedding
is requested. -/
def WAVEEncoder_init (embed_metadata embed_image : Bool) (quality : Nat) :
    Except PyErr EncoderInfo :=
  if embed_metadata || embed_image then
    .error (.exception "WAVE files do not support embedding of metadata or images")
  else .ok ⟨".wav", embed_metadata, embed_image, quality⟩

/-- The validated source format of a constructed `TranscodeJob`. -/
inductive SourceFormat where
  | flac
  | wave
  deriving Repr, DecidableEq

/-- The validated target format of a constructed `TranscodeJob`. -/
inductive TargetFormat where
  | aac
  | opus
  | flac
  | wave
  deriving Repr, DecidableEq

/-- What `self.inpath` resolves to when `start` inspects it. A directory
is a list of contained files, each as (relative directory components,
file name). -/
inductive InPath where
  | file (name : String)
  | dir (entries : List (List String × String))
  | neither
  deriving Repr, DecidableEq

/-- A constructed `TranscodeJob` (fields as validated by `__init__`). -/
structure TranscodeJob where
  inpath : InPath
  outfolder : String
  recursive_mode : Bool
  force_overwrite : Bool
  source_format : SourceFormat
  target_format : TargetFormat
  encoding_quality : Nat
  copy_image : Bool
  max_threads : Nat
  deriving Repr, DecidableEq

/-- `decoder_map[self.source_format](True, self.copy_image)`: the
decoder is always constructed with `extract_metadata=True`. -/
def selectDecoder (env : Env) (job : TranscodeJob) : Except PyErr DecoderInfo :=
  match job.source_format with
  | .flac => FLACDecoder_init env true job.copy_image
  | .wave => WAVEDecoder_init true job.copy_image

/-- `encoder_map[self.target_format](True, self.copy_image,
self.encoding_quality)`: the encoder is always constructed with
`embed_metadata=True`. -/
def selectEncoder (env : Env) (job : TranscodeJob) : Except PyErr EncoderInfo :=
  match job.target_format with
  | .opus => XiphOpusEncoder_init env true job.copy_image job.encoding_quality
  | .aac => NeroAACEncoder_init env true job.copy_image job.encoding_quality
  | .flac => FLACEncoder_init env true job.copy_image job.encoding_quality
  | .wave => WAVEEncoder_init true job.copy_image job.encoding_quality

/-- The codec-construction phase of `start` (its first two statements
after the `chdir`). -/
def selectCodecs (env : Env) (job : TranscodeJob) :
    Except PyErr (DecoderInfo × EncoderInfo) :=
  match selectDecoder env job with
  | .error e => .error e
  | .ok d =>
    match selectEncoder env job with
    | .error e => .error e
    | .ok en => .ok (d, en)

/-- Join path components onto a base (`PurePath.joinpath`). -/
def joinPath (base : String) (comps : List String) : String :=
  comps.foldl (fun a c => a ++ "/" ++ c) base

/-- `glob('*' + suffix)` / `rglob('*' + suffix)` over a directory's
entries: non-recursive keeps only direct children; the pattern matches
names ending in the suffix. -/
def dirGlob (entries : List (List String × String)) (recursive : Bool)
    (suffix : String) : List (List String × String) :=
  (if recursive then entries else entries.filter (fun e => e.1 = [])).filter
    (fun e => e.2.endsWith suffix)

/-- Observable outcome of `TranscodeJob.start`: the result (or raised
exception), the process-wide working directory when `start` returns or
raises, the enqueued (infile, outfolder) pairs, and `files_found`. -/
structure StartOut where
  result : Except PyErr Unit
  cwd : String
  enqueued : List (String × String)
  files_found : Nat

/-- `TranscodeJob.start`. `origCwd` is `os.getcwd()` at entry, `binPath`
the bundled `bin` directory.  The sequence is: `os.chdir(bin_path)`;
construct decoder then encoder (either may raise); start the pool
(no modelled effect); inspect `inpath` and enqueue (may raise); join;
`os.chdir(tmp_cwd)`.  There is no `try/finally`, so every raise after
the `chdir` leaves the working directory at `binPath`. -/
def start (job : TranscodeJob) (env : Env) (origCwd binPath : String) :
    StartOut :=
  match selectCodecs env job with
  | .error e => ⟨.error e, binPath, [], 0⟩
  | .ok (decoder, _encoder) =>
    match job.inpath with
    | .file name =>
      if pathSuffix name ≠ decoder.suffix then
        ⟨.error (.exception "Input file has wrong suffix"), binPath, [], 0⟩
      else ⟨.ok (), origCwd, [(name, job.outfolder)], 1⟩
    | .dir entries =>
      let files := dirGlob entries job.recursive_mode decoder.suffix
      if files.length = 0 then
        ⟨.error (.exception "No suitable files were found in the folder"),
         binPath, [], 0⟩
      else
        ⟨.ok (), origCwd,
         files.map (fun e => (joinPath "" (e.1 ++ [e.2]), joinPath job.outfolder e.1)),
         files.length⟩
    | .neither =>
      ⟨.error (.exception "Input is neither a file nor a folder"), binPath, [], 0⟩

/-! ## The queue/join protocol (`queue.Queue` with `task_done`/`join`)

`start` enqueues `N` items and calls `input_queue.join()`; each of the
`k` workers loops `get` → process → `task_done`.  This is modelled as a
step relation on the queue's counters: `pending` items not yet dequeued,
`active` items dequeued but not yet marked done, `done` items marked
done.  `join()` is unblocked exactly when the unfinished-task count
`pending + active` is zero.  Worker processing itself never raises (all
codec exceptions are caught, see `transcode`), so every dequeued item is
eventually marked done: a `grab` step is always followed by an enabled
`finish` step. -/

/-- Counters of the shared input queue. -/
structure PoolState where
  pending : Nat
  active : Nat
  done : Nat
  deriving Repr, DecidableEq

/-- The queue state right after `start` enqueued `jobs` items. -/
def initPool (jobs : Nat) : PoolState := ⟨jobs, 0, 0⟩

/-- A worker dequeues an item (`input_queue.get()`); at most `k`
workers, so at most `k` items are in flight. -/
def Grab (k : Nat) (s t : PoolState) : Prop :=
  0 < s.pending ∧ s.active < k ∧
    t = ⟨s.pending - 1, s.active + 1, s.done⟩

/-- A worker finishes its item and signals `task_done()`. -/
def Finish (s t : PoolState) : Prop :=
  0 < s.active ∧ t = ⟨s.pending, s.active - 1, s.done + 1⟩

/-- `input_queue.join()` is unblocked: the unfinished-task count is
zero. -/
def joinReturns (s : PoolState) : Prop := s.pending = 0 ∧ s.active = 0

/-- Executions of the pool: `Exec k s f t` means the pool can go from
`s` to `t` with exactly `f` completion signals (`task_done` calls). -/
inductive Exec (k : Nat) : PoolState → Nat → PoolState → Prop where
  | refl (s : PoolState) : Exec k s 0 s
  | grab {s t u : PoolState} {f : Nat} :
      Exec k s f t → Grab k t u → Exec k s f u
  | finish {s t u : PoolState} {f : Nat} :
      Exec k s f t → Finish t u → Exec k s (f + 1) u

/-! ## Lemmas about the tag dictionary -/

theorem lookupTag_setTag_self (t : Tags) (k : String) (v : TagValue) :
    lookupTag (setTag t k v) k = some v := by
  induction t with
  | nil => simp [setTag, lookupTag]
  | cons p rest ih =>
    obtain ⟨k₁, v₁⟩ := p
    by_cases h : k₁ = k
    · simp [setTag, lookupTag, h]
    · simp [setTag, lookupTag, h, ih]

theorem lookupTag_setTag_ne (t : Tags) (k k₂ : String) (v : TagValue)
    (h : k₂ ≠ k) : lookupTag (setTag t k v) k₂ = lookupTag t k₂ := by
  induction t with
  | nil =>
    simp only [setTag, lookupTag]
    rw [if_neg (fun hh => h hh.symm)]
  | cons p rest ih =>
    obtain ⟨k₁, v₁⟩ := p
    by_cases h₁ : k₁ = k
    · subst h₁
      simp only [setTag, if_pos rfl, lookupTag]
      rw [if_neg (fun hh => h hh.symm), if_neg (fun hh => h hh.symm)]
    · simp only [setTag, if_neg h₁, lookupTag]
      by_cases h₂ : k₁ = k₂
      · rw [if_pos h₂, if_pos h₂]
      · rw [if_neg h₂, if_neg h₂]
        exact ih

theorem crossFold_cons (tags : Tags) (p : String × String)
    (l : List (String × String)) (out : Tags) :
    crossFold tags (p :: l) out =
      crossFold tags l
        (match lookupTag tags p.1 with
         | some v => setTag out p.2 v
         | none => out) := rfl

theorem crossFold_append (tags : Tags) (l₁ l₂ : List (String × String))
    (out : Tags) :
    crossFold tags (l₁ ++ l₂) out = crossFold tags l₂ (crossFold tags l₁ out) := by
  simp [crossFold, List.foldl_append]

theorem lookupTag_crossFold_of_not_written (tags : Tags)
    (l : List (String × String)) (out : Tags) (k : String)
    (h : ∀ p ∈ l, p.2 ≠ k) :
    lookupTag (crossFold tags l out) k = lookupTag out k := by
  induction l generalizing out with
  | nil => rfl
  | cons p rest ih =>
    rw [crossFold_cons]
    cases hp : lookupTag tags p.1 with
    | none =>
      simp only []
      exact ih _ (fun q hq => h q (List.mem_cons_of_mem _ hq))
    | some v =>
      simp only []
      rw [ih _ (fun q hq => h q (List.mem_cons_of_mem _ hq))]
      exact lookupTag_setTag_ne out p.2 k v (Ne.symm (h p (List.mem_cons_self _ _)))

theorem versionStep_lookup_ne (t u : Tags) (k : String)
    (hk : k ≠ "TITLE") (h : versionStep t = .ok u) :
    lookupTag u k = lookupTag t k := by
  unfold versionStep at h
  cases hv : lookupTag t "VERSION" with
  | none => simp only [hv] at h; cases h; rfl
  | some ver =>
    simp only [hv] at h
    cases ht : lookupTag t "TITLE" with
    | none => simp only [ht] at h; cases h
    | some title =>
      simp only [ht] at h
      cases ha : pyStrAppendVersion title ver with
      | error e => simp only [ha] at h; cases h
      | ok v =>
        simp only [ha] at h
        cases h
        exact lookupTag_setTag_ne t "TITLE" k v hk

/-- Claim C2: on the input tag set
`{TITLE: "Song", VERSION: "Remix", TRACKNUMBER: "03"}` the crosswalk
translation succeeds and its output contains `title = "Song [Remix]"`
and `track = 3` and no `"version"` key. -/
theorem crosswalk_roundtrip_concrete :
    ∃ r, mapVorbisCommentToNeroaactag
        [("TITLE", .str "Song"), ("VERSION", .str "Remix"),
         ("TRACKNUMBER", .str "03")] = .ok r ∧
      lookupTag r.2 "title" = some (.str "Song [Remix]") ∧
      lookupTag r.2 "track" = some (.int 3) ∧
      hasKey r.2 "version" = false := by
  refine ⟨([("TITLE", .str "Song [Remix]"), ("VERSION", .str "Remix"),
            ("TRACKNUMBER", .int 3)],
           [("title", .str "Song [Remix]"), ("track", .int 3)]),
          ?_, ?_, ?_, ?_⟩ <;> rfl

/-- Claim C9: for every tag set with a `VERSION` key but no `TITLE` key,
the crosswalk raises `KeyError` (step 1 indexes `TITLE` unchecked). -/
theorem crosswalk_version_without_title_keyerror (t : Tags)
    (hv : hasKey t "VERSION" = true) (ht : hasKey t "TITLE" = false) :
    mapVorbisCommentToNeroaactag t = .error (.keyError "TITLE") := by
  obtain ⟨ver, hver⟩ : ∃ v, lookupTag t "VERSION" = some v := by
    cases hl : lookupTag t "VERSION" with
    | none => rw [hasKey, hl] at hv; cases hv
    | some v => exact ⟨v, rfl⟩
  have htn : lookupTag t "TITLE" = none := by
    cases hl : lookupTag t "TITLE" with
    | none => rfl
    | some v => rw [hasKey, hl] at ht; cases ht
  unfold mapVorbisCommentToNeroaactag versionStep
  simp [hver, htn]

/-- Witness for C9 at a concrete input. -/
theorem crosswalk_version_without_title_keyerror_witness :
    mapVorbisCommentToNeroaactag [("VERSION", .str "Remix")] =
      .error (.keyError "TITLE") :=
  crosswalk_version_without_title_keyerror [("VERSION", .str "Remix")]
    (by rfl) (by rfl)

/-- Counterexample to claim C3: the crosswalk is not pure — on
`{TITLE: "Song", VERSION: "Remix"}` it succeeds but the input dict does
not hold the same keys and values afterwards (TITLE was mutated in
place to `"Song [Remix]"`). -/
theorem crosswalk_mutates_input_counterexample :
    ∃ r, mapVorbisCommentToNeroaactag
        [("TITLE", .str "Song"), ("VERSION", .str "Remix")] = .ok r ∧
      r.1 ≠ [("TITLE", .str "Song"), ("VERSION", .str "Remix")] ∧
      lookupTag r.1 "TITLE" = some (.str "Song [Remix]") := by
  refine ⟨([("TITLE", .str "Song [Remix]"), ("VERSION", .str "Remix")],
           [("title", .str "Song [Remix]")]), rfl, ?_, rfl⟩
  decide

/-- Claim C3 (amended): the crosswalk translation leaves its input tag
set unmodified whenever the input contains neither a `VERSION` nor a
`TRACKNUMBER` key; when either key is present the input dict is mutated
in place (see the counterexample). -/
theorem crosswalk_preserves_input_without_version_tracknumber (t : Tags)
    (hv : hasKey t "VERSION" = false) (htr : hasKey t "TRACKNUMBER" = false) :
    ∃ out, mapVorbisCommentToNeroaactag t = .ok (t, out) := by
  have hvn : lookupTag t "VERSION" = none := by
    cases hl : lookupTag t "VERSION" with
    | none => rfl
    | some v => rw [hasKey, hl] at hv; cases hv
  have htn : lookupTag t "TRACKNUMBER" = none := by
    cases hl : lookupTag t "TRACKNUMBER" with
    | none => rfl
    | some v => rw [hasKey, hl] at htr; cases htr
  refine ⟨crossFold t schema_crosswalk [], ?_⟩
  unfold mapVorbisCommentToNeroaactag versionStep tracknumberStep
  simp [hvn, htn]

/-- Witness for the amended C3 at a concrete input. -/
theorem crosswalk_preserves_input_witness :
    ∃ out, mapVorbisCommentToNeroaactag [("TITLE", .str "Song")] =
      .ok ([("TITLE", .str "Song")], out) :=
  crosswalk_preserves_input_without_version_tracknumber
    [("TITLE", .str "Song")] (by rfl) (by rfl)

/-- Claim C7: whenever the input tag set has a `TRACKNUMBER` field whose
value parses as an integer `n` and the translation returns an output,
the output's `track` value is the integer `n` (so its re-serialisation
has the leading zeros stripped). -/
theorem crosswalk_tracknumber_normalised (t : Tags) (v : TagValue) (n : Int)
    (r : Tags × Tags)
    (htr : lookupTag t "TRACKNUMBER" = some v)
    (hn : pyInt v = some n)
    (hok : mapVorbisCommentToNeroaactag t = .ok r) :
    lookupTag r.2 "track" = some (.int n) := by
  unfold mapVorbisCommentToNeroaactag at hok
  cases h₁ : versionStep t with
  | error e => simp only [h₁] at hok; cases hok
  | ok tags₁ =>
    simp only [h₁] at hok
    have htr₁ : lookupTag tags₁ "TRACKNUMBER" = some v := by
      rw [versionStep_lookup_ne t tags₁ "TRACKNUMBER" (by decide) h₁]
      exact htr
    unfold tracknumberStep at hok
    simp only [htr₁, hn] at hok
    cases hok
    show lookupTag (crossFold (setTag tags₁ "TRACKNUMBER" (.int n))
      schema_crosswalk []) "track" = some (.int n)
    have hsplit : schema_crosswalk =
        [("ARTIST", "artist"), ("TITLE", "title"), ("ALBUM", "album"),
         ("DATE", "year")] ++
        ("TRACKNUMBER", "track") ::
        [("GENRE", "genre"), ("COMMENT", "comment"),
         ("ORGANIZATION", "label"), ("LICENSE", "credits"),
         ("COPYRIGHT", "copyright"), ("ISRC", "isrc"),
         ("COMPOSER", "composer"), ("TRACKTOTAL", "totaltracks"),
         ("DISCNUMBER", "disc"), ("DISCTOTAL", "totaldiscs")] := rfl
    rw [hsplit, crossFold_append, crossFold_cons,
      lookupTag_setTag_self tags₁ "TRACKNUMBER" (.int n)]
    rw [lookupTag_crossFold_of_not_written _ _ _ _ (by decide)]
    exact lookupTag_setTag_self _ "track" (.int n)

/-- Witness for C7 at a concrete input. -/
theorem crosswalk_tracknumber_normalised_witness :
    lookupTag ([("title", TagValue.str "Song"), ("track", TagValue.int 3)])
      "track" = some (.int 3) :=
  crosswalk_tracknumber_normalised
    [("TITLE", .str "Song"), ("TRACKNUMBER", .str "03")]
    (.str "03") 3
    ([("TITLE", .str "Song"), ("TRACKNUMBER", .int 3)],
     [("title", .str "Song"), ("track", .int 3)])
    (by rfl) (by rfl) (by rfl)

/-! ## Lemmas about temporary-file deletion -/

theorem deleteLoop_inv (removeOk : Nat → Bool) (p : String) :
    ∀ (fuel : Nat) (fs : FS) (a f s : Nat), f ≤ a → s = 200 * f →
    (deleteLoop removeOk p fuel fs a f s).2.1 ≤ a + fuel ∧
    (deleteLoop removeOk p fuel fs a f s).2.2.1 ≤
      (deleteLoop removeOk p fuel fs a f s).2.1 ∧
    (deleteLoop removeOk p fuel fs a f s).2.2.2 =
      200 * (deleteLoop removeOk p fuel fs a f s).2.2.1 := by
  intro fuel
  induction fuel with
  | zero =>
    intro fs a f s hf hs
    simp only [deleteLoop]
    exact ⟨Nat.le_refl _, hf, hs⟩
  | succ fuel ih =>
    intro fs a f s hf hs
    simp only [deleteLoop]
    by_cases he : fsExists fs p
    · rw [if_pos he]
      by_cases hok : removeOk (a + 1)
      · rw [if_pos hok]
        have h₁ := ih (fsRemove fs p) (a + 1) f s (Nat.le_succ_of_le hf) hs
        exact ⟨by omega, h₁.2.1, h₁.2.2⟩
      · rw [if_neg hok]
        have h₁ := ih fs (a + 1) (f + 1) (s + 200)
          (Nat.succ_le_succ hf) (by omega)
        exact ⟨by omega, h₁.2.1, h₁.2.2⟩
    · rw [if_neg he]
      exact ⟨Nat.le_add_right a (fuel + 1), hf, hs⟩

theorem drainTmpQueue_spec (removeOk : String → Nat → Bool) :
    ∀ (pending : List String) (fs : FS), "" ∉ pending →
    (drainTmpQueue removeOk (pending ++ [""]) fs).1 = [] ∧
    ((drainTmpQueue removeOk (pending ++ [""]) fs).2.2.map DelStat.path =
      pending) ∧
    ∀ d ∈ (drainTmpQueue removeOk (pending ++ [""]) fs).2.2,
      d.attempts ≤ 20 ∧ d.failedAttempts ≤ d.attempts ∧
      d.sleptMs = 200 * d.failedAttempts := by
  intro pending
  induction pending with
  | nil =>
    intro fs _
    simp [drainTmpQueue]
  | cons p rest ih =>
    intro fs h
    have hp : ¬(p = "") := fun hh => h (by rw [hh]; exact List.mem_cons_self _ _)
    have hrest : "" ∉ rest := fun hh => h (List.mem_cons_of_mem _ hh)
    simp only [List.cons_append, drainTmpQueue, if_neg hp]
    obtain ⟨h₁, h₂, h₃⟩ :=
      ih (deleteLoop (removeOk p) p 20 fs 0 0 0).1 hrest
    refine ⟨h₁, ?_, ?_⟩
    · simp [h₂]
    · intro d hd
      rcases List.mem_cons.mp hd with hd | hd
      · subst hd
        have h₄ := deleteLoop_inv (removeOk p) p 20 fs 0 0 0
          (Nat.le_refl 0) rfl
        exact ⟨h₄.1, h₄.2.1, h₄.2.2⟩
      · exact h₃ d hd

/-- Claim C4: `_delete_tmp_files` (the tracker's `release_all`) empties
the pending queue regardless of whether deletions succeeded (for any
per-attempt success oracle), records one statistic per pending path, and
for each path makes at most 20 attempts, sleeping 200 ms after each
failed attempt (and only then), then abandons the path non-fatally. -/
theorem release_all_empties_pending_bounded_retries
    (removeOk : String → Nat → Bool) (pending : List String) (fs : FS)
    (h : "" ∉ pending) :
    (deleteTmpFiles removeOk pending fs).1 = [] ∧
    ((deleteTmpFiles removeOk pending fs).2.2.map DelStat.path = pending) ∧
    ∀ d ∈ (deleteTmpFiles removeOk pending fs).2.2,
      d.attempts ≤ 20 ∧ d.failedAttempts ≤ d.attempts ∧
      d.sleptMs = 200 * d.failedAttempts :=
  drainTmpQueue_spec removeOk pending fs h

/-- Witness for C4: two pending paths, deletion failing on the first two
attempts of each. -/
theorem release_all_empties_pending_witness :
    ("" ∉ ["tmpa", "tmpb"]) ∧
    (deleteTmpFiles (fun _ n => Nat.ble 3 n) ["tmpa", "tmpb"]
      ["tmpa", "tmpb"]).1 = [] :=
  ⟨by decide,
   (release_all_empties_pending_bounded_retries (fun _ n => Nat.ble 3 n)
     ["tmpa", "tmpb"] ["tmpa", "tmpb"] (by decide)).1⟩

/-! ## Lemmas about the filesystem model and the worker -/

theorem fsExists_fsRemove_self (fs : FS) (p : String) :
    fsExists (fsRemove fs p) p = false := by
  induction fs with
  | nil => rfl
  | cons q rest ih =>
    rw [show fsRemove (q :: rest) p =
        (if q ≠ p then q :: fsRemove rest p else fsRemove rest p) from by
      simp [fsRemove, List.filter_cons]]
    by_cases h : q = p
    · rw [if_neg (fun hh => hh h)]
      exact ih
    · rw [if_pos h]
      simp only [fsExists, List.contains_cons] at ih ⊢
      have hq : (p == q) = false := by
        simp
        exact fun hh => h hh.symm
      rw [hq, Bool.false_or]
      exact ih

theorem fsExists_fsCreate_ne (fs : FS) (p q : String) (h : p ≠ q) :
    fsExists (fsCreate fs q) p = fsExists fs p := by
  unfold fsCreate
  by_cases hc : fs.contains q
  · rw [if_pos hc]
  · rw [if_neg hc]
    simp only [fsExists, List.contains_cons]
    have hq : (p == q) = false := by
      simp [h]
    rw [hq, Bool.false_or]

theorem workerRun_length (force : Bool) (suf : String)
    (F : JobSpec → JobOracles) :
    ∀ (jobs : List JobSpec) (fs : FS),
    (workerRun force suf F jobs fs).2.length = jobs.length := by
  intro jobs
  induction jobs with
  | nil => intro fs; rfl
  | cons j rest ih =>
    intro fs
    simp only [workerRun, List.length_cons]
    rw [ih]

theorem transcode_skip (o : JobOracles) (outfile : String) (fs : FS)
    (hex : fsExists fs outfile = true) :
    transcode false o outfile fs =
      ⟨fs, false, false, [], [], none⟩ := by
  unfold transcode
  rw [if_pos hex]
  rfl

theorem transcodeBody_core (o : JobOracles) (outfile : String) (fs₀ : FS) :
    (transcodeBody o outfile fs₀).decodeAttempted = true ∧
    (transcodeBody o outfile fs₀).fsAtDecode =
      some (fsCreate (fsCreate fs₀ o.tmpAudio) o.tmpImage) := by
  cases hdec : o.decode with
  | error e => simp [transcodeBody, hdec]
  | ok tags =>
    cases henc : o.encode tags with
    | error e => simp [transcodeBody, transcodeEncodePhase, hdec, henc]
    | ok u => simp [transcodeBody, transcodeEncodePhase, hdec, henc]

theorem transcode_force_overwrite (o : JobOracles) (outfile : String)
    (fs : FS) (hex : fsExists fs outfile = true)
    (hta : o.tmpAudio ≠ outfile) (hti : o.tmpImage ≠ outfile) :
    (transcode true o outfile fs).decodeAttempted = true ∧
    ∃ fsD, (transcode true o outfile fs).fsAtDecode = some fsD ∧
      fsExists fsD outfile = false := by
  unfold transcode
  rw [if_pos hex]
  rw [if_pos (rfl : (true : Bool) = true)]
  obtain ⟨h₁, h₂⟩ := transcodeBody_core o outfile (fsRemove fs outfile)
  refine ⟨h₁, _, h₂, ?_⟩
  rw [fsExists_fsCreate_ne _ _ _ (Ne.symm hti),
    fsExists_fsCreate_ne _ _ _ (Ne.symm hta), fsExists_fsRemove_self]

theorem transcode_decode_error (force : Bool) (o : JobOracles)
    (outfile : String) (fs : FS) (msg : String)
    (hdec : o.decode = .error msg)
    (hatt : (transcode force o outfile fs).decodeAttempted = true) :
    (transcode force o outfile fs).warnings =
      ["Failed to decode file: " ++ msg] ∧
    (transcode force o outfile fs).encodeAttempted = false ∧
    (transcode force o outfile fs).tmps = [o.tmpAudio, o.tmpImage] := by
  unfold transcode at hatt ⊢
  by_cases he : fsExists fs outfile
  · rw [if_pos he] at hatt ⊢
    by_cases hf : force
    · rw [if_pos hf] at hatt ⊢
      simp [transcodeBody, hdec]
    · rw [if_neg hf] at hatt
      cases hatt
  · rw [if_neg he] at hatt ⊢
    simp [transcodeBody, hdec]

/-- Claim C5: when a job's decode step fails, the worker logs exactly the
decode warning, attempts no encode, still drains its temporary-file
queue, marks the job done, and the loop goes on to the next dequeued
job; one record is produced for every job (the exception never escapes
the loop) and the failed job appears only once (never retried). -/
theorem decode_failure_contained (force : Bool) (suf : String)
    (F : JobSpec → JobOracles) (job : JobSpec) (rest : List JobSpec)
    (fs : FS) (msg : String)
    (hdec : (F job).decode = .error msg)
    (hta : (F job).tmpAudio ≠ "") (hti : (F job).tmpImage ≠ "")
    (hatt : (processJob force suf (F job) job fs).2.decodeAttempted = true) :
    (processJob force suf (F job) job fs).2.warnings =
      ["Failed to decode file: " ++ msg] ∧
    (processJob force suf (F job) job fs).2.encodeAttempted = false ∧
    (processJob force suf (F job) job fs).2.tmpRemaining = [] ∧
    (processJob force suf (F job) job fs).2.taskDone = true ∧
    (workerRun force suf F (job :: rest) fs).2 =
      (processJob force suf (F job) job fs).2 ::
        (workerRun force suf F rest
          (processJob force suf (F job) job fs).1).2 ∧
    (∀ (jobs : List JobSpec) (fs₀ : FS),
      (workerRun force suf F jobs fs₀).2.length = jobs.length) := by
  have hatt₂ : (transcode force (F job)
      (createOutfileName suf job.infile job.outfolder) fs).decodeAttempted =
      true := hatt
  obtain ⟨hw, he, htm⟩ :=
    transcode_decode_error force (F job) _ fs msg hdec hatt₂
  have hne : "" ∉ [(F job).tmpAudio, (F job).tmpImage] := by
    intro hmem
    rcases List.mem_cons.mp hmem with hmem | hmem
    · exact hta hmem.symm
    · rcases List.mem_cons.mp hmem with hmem | hmem
      · exact hti hmem.symm
      · cases hmem
  refine ⟨hw, he, ?_, rfl, rfl, workerRun_length force suf F⟩
  show (deleteTmpFiles (F job).removeOk
      (transcode force (F job)
        (createOutfileName suf job.infile job.outfolder) fs).tmps
      (transcode force (F job)
        (createOutfileName suf job.infile job.outfolder) fs).fs).1 = []
  rw [htm]
  exact (drainTmpQueue_spec (F job).removeOk
    [(F job).tmpAudio, (F job).tmpImage] _ hne).1

/-- Witness for C5 at a concrete failing decode. -/
theorem decode_failure_contained_witness :
    (processJob false ".opus"
      (⟨"t1", "t2", .error "boom", fun _ => .ok (), fun _ _ => true⟩ :
        JobOracles)
      ⟨"a.flac", "out"⟩ []).2.encodeAttempted = false :=
  (decode_failure_contained false ".opus"
    (fun _ => ⟨"t1", "t2", .error "boom", fun _ => .ok (), fun _ _ => true⟩)
    ⟨"a.flac", "out"⟩ [] [] "boom" rfl (by decide) (by decide) (by rfl)).2.1

/-- Claim C6: the overwrite check precedes decoding.  If the computed
output path exists and force-overwrite is off, the job is skipped with
no decode or encode, the filesystem (including the existing output) is
untouched, and the job is still marked done.  If force-overwrite is on,
the existing output is deleted before the decoder runs: the filesystem
seen at decode time no longer contains the output path. -/
theorem overwrite_check_precedes_decode (force : Bool) (suf : String)
    (o : JobOracles) (job : JobSpec) (fs : FS) :
    (fsExists fs (createOutfileName suf job.infile job.outfolder) = true →
      force = false →
      (processJob force suf o job fs).2.decodeAttempted = false ∧
      (processJob force suf o job fs).2.encodeAttempted = false ∧
      (processJob force suf o job fs).1 = fs ∧
      (processJob force suf o job fs).2.taskDone = true) ∧
    (fsExists fs (createOutfileName suf job.infile job.outfolder) = true →
      force = true →
      o.tmpAudio ≠ createOutfileName suf job.infile job.outfolder →
      o.tmpImage ≠ createOutfileName suf job.infile job.outfolder →
      (processJob force suf o job fs).2.decodeAttempted = true ∧
      ∃ fsD, (processJob force suf o job fs).2.fsAtDecode = some fsD ∧
        fsExists fsD (createOutfileName suf job.infile job.outfolder) =
          false) := by
  constructor
  · intro hex hfo
    subst hfo
    have hsk := transcode_skip o
      (createOutfileName suf job.infile job.outfolder) fs hex
    refine ⟨?_, ?_, ?_, rfl⟩
    · show (transcode false o
        (createOutfileName suf job.infile job.outfolder) fs).decodeAttempted
          = false
      rw [hsk]
    · show (transcode false o
        (createOutfileName suf job.infile job.outfolder) fs).encodeAttempted
          = false
      rw [hsk]
    · show (deleteTmpFiles o.removeOk
        (transcode false o
          (createOutfileName suf job.infile job.outfolder) fs).tmps
        (transcode false o
          (createOutfileName suf job.infile job.outfolder) fs).fs).2.1 = fs
      rw [hsk]
      rfl
  · intro hex hfo hta hti
    subst hfo
    exact transcode_force_overwrite o
      (createOutfileName suf job.infile job.outfolder) fs hex hta hti

/-- Witness for C6 (skip branch) at a concrete existing output file. -/
theorem overwrite_check_precedes_decode_witness :
    (processJob false ".opus"
      (⟨"t1", "t2", .ok [], fun _ => .ok (), fun _ _ => true⟩ : JobOracles)
      ⟨"a.flac", "out"⟩ ["out/a.opus"]).2.decodeAttempted = false ∧
    (processJob false ".opus"
      (⟨"t1", "t2", .ok [], fun _ => .ok (), fun _ _ => true⟩ : JobOracles)
      ⟨"a.flac", "out"⟩ ["out/a.opus"]).2.encodeAttempted = false ∧
    (processJob false ".opus"
      (⟨"t1", "t2", .ok [], fun _ => .ok (), fun _ _ => true⟩ : JobOracles)
      ⟨"a.flac", "out"⟩ ["out/a.opus"]).1 = ["out/a.opus"] ∧
    (processJob false ".opus"
      (⟨"t1", "t2", .ok [], fun _ => .ok (), fun _ _ => true⟩ : JobOracles)
      ⟨"a.flac", "out"⟩ ["out/a.opus"]).2.taskDone = true :=
  (overwrite_check_precedes_decode false ".opus"
    (⟨"t1", "t2", .ok [], fun _ => .ok (), fun _ _ => true⟩ : JobOracles)
    ⟨"a.flac", "out"⟩ ["out/a.opus"]).1 (by rfl) rfl

/-! ## Claims about `TranscodeJob.start` -/

/-- Claim C1: every run with a wave endpoint (source or target format
`wave`) fails during codec construction — `start` always passes
`extract_metadata=True` / `embed_metadata=True`, which the WAVE codec
constructors reject — so `start` raises with nothing enqueued and no
file transcoded. -/
theorem wave_endpoint_raises_before_enqueue (job : TranscodeJob) (env : Env)
    (origCwd binPath : String)
    (h : job.source_format = .wave ∨ job.target_format = .wave) :
    ∃ e, selectCodecs env job = .error e ∧
      start job env origCwd binPath = ⟨.error e, binPath, [], 0⟩ := by
  obtain ⟨e, he⟩ : ∃ e, selectCodecs env job = .error e := by
    rcases h with h | h
    · refine ⟨.exception
        "WAVE files have no native support for metadata or embedded images.",
        ?_⟩
      unfold selectCodecs selectDecoder
      simp [h, WAVEDecoder_init]
    · cases hs : job.source_format with
      | wave =>
        refine ⟨.exception
          "WAVE files have no native support for metadata or embedded images.",
          ?_⟩
        unfold selectCodecs selectDecoder
        simp [hs, WAVEDecoder_init]
      | flac =>
        unfold selectCodecs selectDecoder selectEncoder
        by_cases hf : env.flac
        · by_cases hm : env.metaflac
          · refine ⟨.exception
              "WAVE files do not support embedding of metadata or images",
              ?_⟩
            simp [hs, h, FLACDecoder_init, WAVEEncoder_init, hf, hm]
          · refine ⟨.fileNotFound
              "Cannot locate required executable »metaflac«", ?_⟩
            simp [hs, FLACDecoder_init, hf, hm]
        · refine ⟨.fileNotFound
            "Cannot locate required executable »flac«", ?_⟩
          simp [hs, FLACDecoder_init, hf]
  refine ⟨e, he, ?_⟩
  unfold start
  rw [he]

/-- Witness for C1: a wave-source job with every executable available. -/
theorem wave_endpoint_raises_witness :
    ∃ e, selectCodecs ⟨true, true, true, true, true⟩
        ⟨.file "a.wav", "out", false, false, .wave, .opus, 50, false, 4⟩ =
        .error e ∧
      start ⟨.file "a.wav", "out", false, false, .wave, .opus, 50, false, 4⟩
        ⟨true, true, true, true, true⟩ "orig" "bin" =
        ⟨.error e, "bin", [], 0⟩ :=
  wave_endpoint_raises_before_enqueue
    ⟨.file "a.wav", "out", false, false, .wave, .opus, 50, false, 4⟩
    ⟨true, true, true, true, true⟩ "orig" "bin" (Or.inl rfl)

/-- Claim C10: `start` switches the process-wide working directory to
the bundled `bin` directory and moves it back only on the successful
return path: whenever `start` raises (after the switch), the working
directory is left at the `bin` directory. -/
theorem start_cwd_restored_only_on_success (job : TranscodeJob) (env : Env)
    (origCwd binPath : String) :
    ((start job env origCwd binPath).result = .ok () →
      (start job env origCwd binPath).cwd = origCwd) ∧
    (∀ e, (start job env origCwd binPath).result = .error e →
      (start job env origCwd binPath).cwd = binPath) := by
  unfold start
  cases hsel : selectCodecs env job with
  | error e => simp
  | ok de =>
    obtain ⟨d, en⟩ := de
    cases hin : job.inpath with
    | file name =>
      by_cases hsuf : pathSuffix name ≠ d.suffix
      · simp [hsuf]
      · simp [hsuf]
    | dir entries =>
      by_cases hlen :
          (dirGlob entries job.recursive_mode d.suffix).length = 0
      · simp [hlen]
      · simp [hlen]
    | neither => simp

/-- Witness for C10 at a concrete raising `start` (wave source). -/
theorem start_cwd_restored_witness :
    (start ⟨.file "a.wav", "out", false, false, .wave, .opus, 50, false, 4⟩
      ⟨true, true, true, true, true⟩ "orig" "bin").cwd = "bin" :=
  (start_cwd_restored_only_on_success
    ⟨.file "a.wav", "out", false, false, .wave, .opus, 50, false, 4⟩
    ⟨true, true, true, true, true⟩ "orig" "bin").2
    (.exception
      "WAVE files have no native support for metadata or embedded images.")
    (by rfl)

/-! ## Claim about the queue/join protocol -/

theorem exec_invariant (k N f : Nat) (s : PoolState)
    (h : Exec k (initPool N) f s) :
    s.pending + s.active + s.done = N ∧ s.done = f := by
  induction h with
  | refl => exact ⟨by simp [initPool], rfl⟩
  | grab h₁ hg ih =>
    obtain ⟨hp, ha, ht⟩ := hg
    subst ht
    simp only []
    omega
  | finish h₁ hf ih =>
    obtain ⟨ha, ht⟩ := hf
    subst ht
    simp only []
    omega

/-- Claim C8: over the queue/join protocol, for any job count `N` and
worker count `k` in 1–64: `join` returns exactly when all `N` jobs have
been marked done, which happens after exactly `N` completion signals
(never early); and while `join` has not returned, some worker step is
still enabled (never hangs). -/
theorem join_barrier_exact (N k : Nat) (hk : 1 ≤ k ∧ k ≤ 64) (f : Nat)
    (s : PoolState) (h : Exec k (initPool N) f s) :
    (joinReturns s ↔ (s.done = N ∧ f = N)) ∧
    (¬joinReturns s → (∃ t, Grab k s t) ∨ (∃ t, Finish s t)) := by
  obtain ⟨hinv, hdone⟩ := exec_invariant k N f s h
  unfold joinReturns
  constructor
  · constructor
    · rintro ⟨hp, ha⟩
      constructor <;> omega
    · rintro ⟨h₁, h₂⟩
      constructor <;> omega
  · intro hnj
    by_cases ha : 0 < s.active
    · exact Or.inr ⟨⟨s.pending, s.active - 1, s.done + 1⟩, ha, rfl⟩
    · have hp : 0 < s.pending := by omega
      exact Or.inl
        ⟨⟨s.pending - 1, s.active + 1, s.done⟩, hp, by omega, rfl⟩

/-- Witness for C8: one job, one worker, the two-step execution that
dequeues and completes it. -/
theorem join_barrier_exact_witness :
    (joinReturns ⟨0, 0, 1⟩ ↔ ((1 : Nat) = 1 ∧ (1 : Nat) = 1)) ∧
    (¬joinReturns ⟨0, 0, 1⟩ →
      (∃ t, Grab 1 ⟨0, 0, 1⟩ t) ∨ (∃ t, Finish ⟨0, 0, 1⟩ t)) :=
  join_barrier_exact 1 1 ⟨by decide, by decide⟩ 1 ⟨0, 0, 1⟩
    (Exec.finish (Exec.grab (Exec.refl (initPool 1))
        ⟨by decide, by decide, rfl⟩)
      ⟨by decide, rfl⟩)

end Transcode
